import Mathlib

/-!
Shallow embedding of the retrieval-index core of the `ai-rag-demo` repository:
the in-memory storage backend (`rag_backend/storage_memory.py`), the response
handling of the Qdrant backend (`rag_backend/storage_qdrant.py`), the local
durable snapshot and retrieval service (`rag.py`), and the sentence chunker
(`rag.py`).  Machine floats of the source are modelled as rationals; vectors
are lists of rationals.  Fallible operations return `Option`/`Except`, where
`none`/`error` models a raised Python exception.
-/

namespace RagDemo

/-- Payload metadata attached to each chunk by `RAGService.ingest_files`:
keys `doc_id`, `chunk_idx`, `id`. -/
structure ChunkMeta where
  doc_id : String
  chunk_idx : Nat
  id : String
deriving DecidableEq

/-- State of `MemoryStorage` (storage_memory.py): the two parallel lists
`_vecs` and `_meta`. -/
structure MemoryStorage (α : Type) where
  vecs : List (List ℚ)
  meta : List α
deriving DecidableEq

/-- The dict returned by `MemoryStorage.upsert`. -/
structure UpsertResult where
  ok : Bool
  count : Nat
deriving DecidableEq

/-- The dict returned by `MemoryStorage.reset` / `clear`. -/
structure ResetResult where
  ok : Bool
  storage : String
  reset : Bool
deriving DecidableEq

/-- A hit dict returned by `MemoryStorage.search`:
`{"id": i, "payload": meta, "score": 1.0}`. -/
structure MemHit (α : Type) where
  id : Nat
  payload : α
  score : ℚ
deriving DecidableEq

/-- `MemoryStorage.upsert`: extends `_vecs` and `_meta`, returns
`{"ok": True, "count": len(vectors)}`.  No validation of any kind is
performed on the vectors.  State passing models the in-place mutation. -/
def MemoryStorage.upsert (s : MemoryStorage α) (vectors : List (List ℚ)) (payloads : List α) :
    UpsertResult × MemoryStorage α :=
  (⟨true, vectors.length⟩, ⟨s.vecs ++ vectors, s.meta ++ payloads⟩)

/-- `MemoryStorage.search`: `for i, meta in enumerate(self._meta[:k])`,
emitting `{"id": i, "payload": meta, "score": 1.0}`.  The query vector is
accepted but never read. -/
def MemoryStorage.search (s : MemoryStorage α) (queryVec : List ℚ) (k : Nat) :
    List (MemHit α) :=
  (s.meta.take k).enum.map fun p => ⟨p.1, p.2, 1⟩

/-- `MemoryStorage.reset`: clears both lists. -/
def MemoryStorage.reset (s : MemoryStorage α) : ResetResult × MemoryStorage α :=
  (⟨true, "memory", true⟩, ⟨[], []⟩)

/-- `MemoryStorage.clear` delegates to `reset`. -/
def MemoryStorage.clear (s : MemoryStorage α) : ResetResult × MemoryStorage α :=
  s.reset

/-- Dot product of two vectors (spec-side similarity notion: on the
unit-normalized vectors the Embedding Port contract guarantees, cosine
similarity is the dot product). -/
def dot (a b : List ℚ) : ℚ :=
  (List.zipWith (fun x y => x * y) a b).sum

/-- sklearn cosine distance restricted to unit vectors: `1 - dot`.  The
source relies on `normalize_embeddings=True`, so this is the distance the
`metric="cosine"` neighbor search computes. -/
def cosDist (q v : List ℚ) : ℚ :=
  1 - dot q v

/-- One of the three snapshot files: it can be missing from disk, present
but failing to parse, or present with parsed content `a`. -/
inductive FileContent (α : Type) where
  | absent : FileContent α
  | corrupt : FileContent α
  | parsed : α → FileContent α
deriving DecidableEq

/-- `os.path.exists` on the file. -/
def FileContent.isPresent : FileContent α → Bool
  | .absent => false
  | _ => true

/-- Reading and parsing the file: `some` content, or `none` when the read
raises (missing file or corrupt contents). -/
def FileContent.parse : FileContent α → Option α
  | .parsed a => some a
  | _ => none

/-- A file is missing or fails to parse. -/
def FileContent.bad : FileContent α → Bool
  | .parsed _ => false
  | _ => true

/-- The durable snapshot directory of the local backend: the three coupled
files `embeddings.npy`, `metas.json`, `chunks.json`. -/
structure DiskState where
  embFile : FileContent (List (List ℚ))
  metaFile : FileContent (List ChunkMeta)
  textFile : FileContent (List String)
deriving DecidableEq

/-- A successfully loaded index: the three parallel lists. -/
structure IndexData where
  embs : List (List ℚ)
  metas : List ChunkMeta
  chunks : List String
deriving DecidableEq

/-- `RAGService._load_index`: if any of the three files is missing, return
the no-index state; otherwise load all three, and on any parse exception
return the no-index state. -/
def loadIndex (d : DiskState) : Option IndexData :=
  if d.embFile.isPresent ∧ d.metaFile.isPresent ∧ d.textFile.isPresent then
    match d.embFile.parse, d.metaFile.parse, d.textFile.parse with
    | some e, some m, some c => some ⟨e, m, c⟩
    | _, _, _ => none
  else none

/-- How far `_save_index`'s write sequence got before an interruption:
it writes `embeddings.npy`, then `metas.json`, then `chunks.json`, each
directly in place (no temporary path, no rename). -/
inductive SaveStop where
  | completed : SaveStop
  | afterEmb : SaveStop
  | afterMeta : SaveStop
deriving DecidableEq

/-- `RAGService._save_index` with an explicit interruption point: each of
the three files is overwritten in place, in order; the files not yet
written keep their previous contents. -/
def saveIndexStopping (d : DiskState) (embs : List (List ℚ)) (metas : List ChunkMeta)
    (chunks : List String) : SaveStop → DiskState
  | .completed => ⟨.parsed embs, .parsed metas, .parsed chunks⟩
  | .afterEmb => ⟨.parsed embs, d.metaFile, d.textFile⟩
  | .afterMeta => ⟨.parsed embs, .parsed metas, d.textFile⟩

/-- `RAGService._save_index`, run to completion.  Note it receives only the
arrays of the current ingest batch and overwrites all three files with
them. -/
def saveIndex (d : DiskState) (embs : List (List ℚ)) (metas : List ChunkMeta)
    (chunks : List String) : DiskState :=
  saveIndexStopping d embs metas chunks .completed

/-- The sklearn `kneighbors` call as configured by `_fit_nn`
(`metric="cosine"`): indices of all stored rows paired with their cosine
distance to the query, sorted by ascending distance, truncated to
`n_neighbors`. -/
def kneighbors (embs : List (List ℚ)) (q : List ℚ) (n : Nat) : List (Nat × ℚ) :=
  (((List.range embs.length).map fun i => (i, cosDist q (embs.getD i []))).insertionSort
    fun a b => a.2 ≤ b.2).take n

/-- A hit dict built by `RAGService.retrieve`. -/
structure RetrievalHit where
  id : String
  text : String
  doc_id : String
  chunk_idx : Nat
  distance : ℚ
deriving DecidableEq

/-- The hit-building loop of `RAGService.retrieve`: `metas[idx]` and
`chunks[idx]` are plain list indexings, so an out-of-range index raises
(`none`). -/
def buildHits (metas : List ChunkMeta) (chunks : List String) :
    List (Nat × ℚ) → Option (List RetrievalHit)
  | [] => some []
  | p :: rest =>
    match metas[p.1]?, chunks[p.1]? with
    | some m, some t =>
      match buildHits metas chunks rest with
      | some hs => some (⟨m.id, t, m.doc_id, m.chunk_idx, p.2⟩ :: hs)
      | none => none
    | _, _ => none

/-- `RAGService.retrieve`: load the index (absent index gives `[]`).  The
source then calls `_fit_nn(embs)` BEFORE the `n_neighbors == 0` clamp
check, and sklearn's `fit` raises a `ValueError` on a zero-row array, so a
present, parseable snapshot with zero rows raises (`none`).  With at least
one row, `k` is clamped to the row count, a zero clamp returns `[]`, and
otherwise the neighbor search runs and the hit dicts are built.  `none`
models a raised exception. -/
def retrieve (d : DiskState) (q : List ℚ) (k : Nat) : Option (List RetrievalHit) :=
  match loadIndex d with
  | none => some []
  | some idx =>
    if idx.embs.length = 0 then none
    else
      let nn := min k idx.embs.length
      if nn = 0 then some []
      else buildHits idx.metas idx.chunks (kneighbors idx.embs q nn)

/-- requests' `Response.raise_for_status`: raises exactly for 4xx/5xx
status codes. -/
def raiseForStatus (status : Nat) : Except Nat Unit :=
  if 400 ≤ status ∧ status < 600 then .error status else .ok ()

/-- `QdrantStorage._ensure_collection` response handling: the create PUT is
tolerated when its status is 200 or 409 (already exists), otherwise
`raise_for_status`; then the sanity-check GET is `raise_for_status`ed. -/
def ensureCollection (putStatus getStatus : Nat) : Except Nat Unit :=
  match (if putStatus = 200 ∨ putStatus = 409 then Except.ok () else raiseForStatus putStatus) with
  | .error e => .error e
  | .ok _ => raiseForStatus getStatus

/-- `QdrantStorage.upsert` response handling: `raise_for_status` on the
batched points PUT; on success the call returns normally. -/
def qdrantUpsert (status : Nat) : Except Nat Unit :=
  raiseForStatus status

/-- The dict returned by `QdrantStorage.clear`:
keys `ok`, `collection`, `reset`. -/
structure QdrantClearResult where
  ok : Bool
  collection : String
  reset : Bool
deriving DecidableEq

/-- `QdrantStorage.clear` response handling: the request body is the
constant match-all filter (independent of any collection state);
`raise_for_status` on the response, then the fixed success dict carrying
the collection name (`QDRANT_COLLECTION`, default "chunks"). -/
def qdrantClear (status : Nat) : Except Nat QdrantClearResult :=
  match raiseForStatus status with
  | .error e => .error e
  | .ok _ => .ok ⟨true, "chunks", true⟩

/-- Sentence-terminal punctuation of `_simple_sentence_split`'s regex:
`.`, `!`, `?`, and the full-width `。`, `！`, `？`. -/
def isSentEnd (c : Char) : Bool :=
  c = '.' || c = '!' || c = '?' || c = '。' || c = '！' || c = '？'

/-- Whitespace, as matched by the regex class `\s` and by `str.split` /
`str.strip`. -/
def isSpaceChar (c : Char) : Bool :=
  c.isWhitespace

/-- State machine for `re.split` with pattern "lookbehind sentence-end, then
one or more whitespace": `acc` holds the current segment reversed, `inRun`
is true while the (maximal, greedy) whitespace delimiter run is being
consumed.  A delimiter match emits the segment; end of input emits the
final segment (empty when the text ends in a delimiter, as `re.split`
does). -/
def rawSplitAux (acc : List Char) (inRun : Bool) : List Char → List (List Char)
  | [] => [acc.reverse]
  | c :: rest =>
    if inRun then
      if isSpaceChar c then rawSplitAux acc true rest
      else rawSplitAux [c] false rest
    else
      match acc with
      | p :: _ =>
        if isSentEnd p && isSpaceChar c then acc.reverse :: rawSplitAux [] true rest
        else rawSplitAux (c :: acc) false rest
      | [] => rawSplitAux (c :: acc) false rest

/-- `re.split` of `_simple_sentence_split` on the raw text. -/
def rawSplit (text : List Char) : List (List Char) :=
  rawSplitAux [] false text

/-- Python `str.strip()`: drop leading and trailing whitespace. -/
def stripChars (l : List Char) : List Char :=
  ((l.dropWhile isSpaceChar).reverse.dropWhile isSpaceChar).reverse

/-- `_simple_sentence_split`: regex-split the text after sentence-end
punctuation followed by whitespace, strip each piece, keep the non-empty
ones. -/
def simpleSentenceSplit (text : List Char) : List (List Char) :=
  ((rawSplit text).map stripChars).filter fun s => !s.isEmpty

/-- Accumulator loop for Python `str.split()` with no arguments: maximal
runs of non-whitespace characters. -/
def wordsAux (acc : List Char) : List Char → List (List Char)
  | [] => if acc.isEmpty then [] else [acc.reverse]
  | c :: rest =>
    if isSpaceChar c then
      if acc.isEmpty then wordsAux [] rest
      else acc.reverse :: wordsAux [] rest
    else wordsAux (c :: acc) rest

/-- Python `s.split()`. -/
def wordsOf (l : List Char) : List (List Char) :=
  wordsAux [] l

/-- Python `len(s.split())`: the word count used by `chunk_text`. -/
def countWords (l : List Char) : Nat :=
  (wordsOf l).length

/-- Python `" ".join`. -/
def joinSp : List (List Char) → List Char
  | [] => []
  | [s] => s
  | s :: rest => s ++ ' ' :: joinSp rest

/-- The sentence-accumulation loop of `chunk_text`: `buf` is the current
buffer of sentences, `count` its accumulated word count; the buffer is
flushed into a chunk whenever adding the next sentence would exceed
`maxW` and the buffer is non-empty, and once more at the end. -/
def chunkLoop (maxW : Nat) : List (List Char) → List (List Char) → Nat → List (List Char)
  | [], buf, _ => if buf.isEmpty then [] else [joinSp buf]
  | s :: rest, buf, count =>
    let w := countWords s
    if count + w > maxW && !buf.isEmpty then
      joinSp buf :: chunkLoop maxW rest [s] w
    else
      chunkLoop maxW rest (buf ++ [s]) (count + w)

/-- The fallback loop of `chunk_text`:
`for i in range(0, len(words), max_words): append(" ".join(words[i:i+max_words]))`,
written with `fuel = len(words)`; exact for `maxW ≥ 1`, where each step
consumes at least one word. -/
def windowJoin : Nat → Nat → List (List Char) → List (List Char)
  | 0, _, _ => []
  | _ + 1, _, [] => []
  | fuel + 1, maxW, w :: ws =>
    joinSp ((w :: ws).take maxW) :: windowJoin fuel maxW ((w :: ws).drop maxW)

/-- `chunk_text` (default `max_words` is 180): accumulate sentences into
bounded chunks; if nothing was produced and the text is non-empty, fall
back to fixed windows of `max_words` words.  `none` models the
`ValueError` Python's `range` raises when the fallback runs with
`max_words = 0` (step zero). -/
def chunk_text (text : List Char) (maxW : Nat) : Option (List (List Char)) :=
  if (chunkLoop maxW (simpleSentenceSplit text) [] 0).isEmpty && !text.isEmpty then
    if maxW = 0 then none
    else some (windowJoin (wordsOf text).length maxW (wordsOf text))
  else some (chunkLoop maxW (simpleSentenceSplit text) [] 0)

/-! ### Helper lemmas -/

/-- Payloads of the hit dicts built from an `enumFrom` are the enumerated
list itself. -/
theorem enumHits_map_payload {α : Type} (l : List α) :
    ∀ n, ((List.enumFrom n l).map fun p => (⟨p.1, p.2, (1 : ℚ)⟩ : MemHit α)).map
      MemHit.payload = l := by
  induction l with
  | nil => intro n; rfl
  | cons x xs ih => intro n; simpa [List.enumFrom] using ih (n + 1)

/-- Ids of the hit dicts built from an `enumFrom` are the consecutive
positions. -/
theorem enumHits_map_id {α : Type} (l : List α) :
    ∀ n, ((List.enumFrom n l).map fun p => (⟨p.1, p.2, (1 : ℚ)⟩ : MemHit α)).map
      MemHit.id = List.range' n l.length := by
  induction l with
  | nil => intro n; rfl
  | cons x xs ih => intro n; simpa [List.enumFrom, List.range'] using ih (n + 1)

/-- Scores of the hit dicts built from an `enumFrom` are all `1`. -/
theorem enumHits_map_score {α : Type} (l : List α) :
    ∀ n, ((List.enumFrom n l).map fun p => (⟨p.1, p.2, (1 : ℚ)⟩ : MemHit α)).map
      MemHit.score = List.replicate l.length 1 := by
  induction l with
  | nil => intro n; rfl
  | cons x xs ih => intro n; simpa [List.enumFrom, List.replicate] using ih (n + 1)

/-- A snapshot with a missing or unparsable file loads as the no-index
state. -/
theorem loadIndex_eq_none_of_bad (d : DiskState)
    (h : d.embFile.bad ∨ d.metaFile.bad ∨ d.textFile.bad) : loadIndex d = none := by
  obtain ⟨e, m, t⟩ := d
  cases e <;> cases m <;> cases t <;>
    simp_all [loadIndex, FileContent.bad, FileContent.isPresent, FileContent.parse]

/-- Splitting into words distributes over an explicit separating space. -/
theorem wordsAux_append_space (a : List Char) :
    ∀ (acc b : List Char), wordsAux acc (a ++ ' ' :: b) = wordsAux acc a ++ wordsOf b := by
  have hsp : isSpaceChar ' ' = true := by decide
  induction a with
  | nil =>
    intro acc b
    show wordsAux acc (' ' :: b) = wordsAux acc [] ++ wordsOf b
    by_cases h : acc.isEmpty <;> simp [wordsAux, wordsOf, hsp, h]
  | cons c a' ih =>
    intro acc b
    show wordsAux acc (c :: (a' ++ ' ' :: b)) = wordsAux acc (c :: a') ++ wordsOf b
    cases hc : isSpaceChar c
    · simp [wordsAux, hc, ih]
    · by_cases h : acc.isEmpty <;> simp [wordsAux, hc, h, ih]

/-- The word count of a space-joined list of pieces is the sum of the
pieces' word counts. -/
theorem countWords_joinSp : ∀ l : List (List Char),
    countWords (joinSp l) = (l.map countWords).sum
  | [] => by simp [joinSp, countWords, wordsOf, wordsAux]
  | [s] => by simp [joinSp]
  | s :: s' :: r => by
    have ih := countWords_joinSp (s' :: r)
    show countWords (s ++ ' ' :: joinSp (s' :: r)) = _
    rw [countWords, wordsOf, wordsAux_append_space s [] (joinSp (s' :: r))]
    simp only [List.length_append, List.map_cons, List.sum_cons]
    rw [← wordsOf, ← countWords, ← countWords, ih]
    simp [List.sum_cons]

/-- Every word produced by `str.split()` is non-empty and contains no
whitespace. -/
theorem wordsAux_sound : ∀ (l acc : List Char), (∀ c ∈ acc, isSpaceChar c = false) →
    ∀ w ∈ wordsAux acc l, w ≠ [] ∧ ∀ c ∈ w, isSpaceChar c = false := by
  intro l
  induction l with
  | nil =>
    intro acc hacc w hw
    by_cases h : acc.isEmpty
    · simp [wordsAux, h] at hw
    · simp [wordsAux, h] at hw
      subst hw
      refine ⟨?_, ?_⟩
      · simpa [List.isEmpty_iff] using h
      · intro c hc
        exact hacc c (by simpa using hc)
  | cons c rest ih =>
    intro acc hacc w hw
    cases hc : isSpaceChar c
    · refine ih (c :: acc) ?_ w (by simpa [wordsAux, hc] using hw)
      intro x hx
      rcases List.mem_cons.1 hx with rfl | hx
      · exact hc
      · exact hacc x hx
    · by_cases h : acc.isEmpty
      · exact ih [] (by simp) w (by simpa [wordsAux, hc, h] using hw)
      · have heq : wordsAux acc (c :: rest) = acc.reverse :: wordsAux [] rest := by
          simp [wordsAux, hc, h]
        rw [heq] at hw
        rcases List.mem_cons.1 hw with hw' | hw'
        · subst hw'
          refine ⟨by simpa [List.isEmpty_iff] using h, ?_⟩
          intro x hx
          exact hacc x (by simpa using hx)
        · exact ih [] (by simp) w hw'

/-- `str.split()` of a non-empty all-non-whitespace string is that single
word. -/
theorem wordsAux_all_nonspace : ∀ (l acc : List Char),
    (∀ c ∈ l, isSpaceChar c = false) →
    wordsAux acc l = if acc.isEmpty && l.isEmpty then [] else [acc.reverse ++ l] := by
  intro l
  induction l with
  | nil => intro acc _; by_cases h : acc.isEmpty <;> simp [wordsAux, h]
  | cons c rest ih =>
    intro acc h
    have hc : isSpaceChar c = false := h c (List.mem_cons_self c rest)
    rw [show wordsAux acc (c :: rest) = wordsAux (c :: acc) rest by simp [wordsAux, hc],
      ih (c :: acc) fun x hx => h x (List.mem_cons_of_mem c hx)]
    simp

/-- A single word counts as one word. -/
theorem countWords_word (w : List Char) (hne : w ≠ [])
    (hns : ∀ c ∈ w, isSpaceChar c = false) : countWords w = 1 := by
  rw [countWords, wordsOf, wordsAux_all_nonspace w [] hns]
  simp [hne]

/-- Joining a non-empty list of non-empty pieces with spaces is
non-empty. -/
theorem joinSp_ne_nil : ∀ l : List (List Char), l ≠ [] → (∀ w ∈ l, w ≠ []) →
    joinSp l ≠ []
  | [], h, _ => absurd rfl h
  | [s], _, hw => by simpa [joinSp] using hw s (by simp)
  | s :: s' :: r, _, hw => by
    have hs := hw s (by simp)
    simp [joinSp]

/-- Summing a function that is `1` on every element counts the
elements. -/
theorem sum_map_eq_length {α : Type} (f : α → Nat) : ∀ l : List α,
    (∀ x ∈ l, f x = 1) → (l.map f).sum = l.length := by
  intro l
  induction l with
  | nil => simp
  | cons x xs ih =>
    intro h
    simp [h x (by simp), ih fun y hy => h y (by simp [hy]), Nat.add_comm]

/-- Every chunk emitted by the fallback windowing is a non-empty string of
at most `maxW` words. -/
theorem windowJoin_sound (maxW : Nat) (hmw : 1 ≤ maxW) :
    ∀ (fuel : Nat) (ws : List (List Char)),
      (∀ w ∈ ws, w ≠ [] ∧ ∀ c ∈ w, isSpaceChar c = false) →
      ∀ c ∈ windowJoin fuel maxW ws, c ≠ [] ∧ countWords c ≤ maxW := by
  intro fuel
  induction fuel with
  | zero =>
    intro ws h c hc
    cases ws <;> simp [windowJoin] at hc
  | succ fuel ih =>
    intro ws h c hc
    cases ws with
    | nil => simp [windowJoin] at hc
    | cons w ws' =>
      rw [windowJoin] at hc
      rcases List.mem_cons.1 hc with rfl | hc'
      · constructor
        · have htk : (w :: ws').take maxW ≠ [] := by
            cases maxW with
            | zero => omega
            | succ m => simp [List.take_succ_cons]
          exact joinSp_ne_nil _ htk fun x hx => (h x (List.mem_of_mem_take hx)).1
        · rw [countWords_joinSp, sum_map_eq_length countWords _ fun x hx =>
            countWords_word x (h x (List.mem_of_mem_take hx)).1
              (h x (List.mem_of_mem_take hx)).2]
          exact le_trans (List.length_take_le maxW (w :: ws')) le_rfl
      · exact ih ((w :: ws').drop maxW) (fun x hx => h x (List.mem_of_mem_drop hx)) c hc'

/-- A flushed buffer yields a sound chunk: non-empty, and within the word
budget unless it is a single source sentence. -/
theorem emitted_chunk_sound (maxW : Nat) (S : List (List Char))
    (hS : ∀ s ∈ S, s ≠ []) (buf : List (List Char)) (hbne : buf ≠ [])
    (hbuf : ∀ s ∈ buf, s ∈ S)
    (hinv : (buf.map countWords).sum ≤ maxW ∨ ∃ s, buf = [s]) :
    joinSp buf ≠ [] ∧ (countWords (joinSp buf) ≤ maxW ∨ joinSp buf ∈ S) := by
  constructor
  · exact joinSp_ne_nil buf hbne fun w hw => hS w (hbuf w hw)
  · rcases hinv with h | ⟨s, rfl⟩
    · left
      rw [countWords_joinSp]
      exact h
    · right
      simpa [joinSp] using hbuf s (by simp)

/-- Invariant proof for the sentence-accumulation loop: assuming every
pending sentence lies in the sentence list `S` (whose members are
non-empty), the buffer's sentences lie in `S`, `count` is the buffer's
total word count, and the buffer is within budget or a single sentence,
every emitted chunk is non-empty and within budget unless it is a single
sentence of `S`. -/
theorem chunkLoop_sound (maxW : Nat) (S : List (List Char))
    (hS : ∀ s ∈ S, s ≠ []) :
    ∀ (rest buf : List (List Char)) (count : Nat),
      (∀ s ∈ rest, s ∈ S) → (∀ s ∈ buf, s ∈ S) →
      count = (buf.map countWords).sum →
      (count ≤ maxW ∨ ∃ s, buf = [s]) →
      ∀ c ∈ chunkLoop maxW rest buf count, c ≠ [] ∧ (countWords c ≤ maxW ∨ c ∈ S) := by
  intro rest
  induction rest with
  | nil =>
    intro buf count _ hbuf hcount hinv c hc
    rw [chunkLoop] at hc
    by_cases hb : buf.isEmpty
    · simp [hb] at hc
    · simp only [hb, Bool.false_eq_true, if_false, List.mem_singleton] at hc
      subst hc
      exact emitted_chunk_sound maxW S hS buf (by simpa [List.isEmpty_iff] using hb)
        hbuf (hcount ▸ hinv)
  | cons s rest ih =>
    intro buf count hrest hbuf hcount hinv c hc
    rw [chunkLoop] at hc
    by_cases hgt : maxW < count + countWords s
    · by_cases hb : buf.isEmpty
      · have hbe : buf = [] := by simpa [List.isEmpty_iff] using hb
        subst hbe
        rw [if_neg (by simp [hb])] at hc
        refine ih [s] (count + countWords s) (fun x hx => hrest x (by simp [hx]))
          (fun x hx => hrest x (by simpa using List.mem_cons.1 hx |>.elim (fun h => by simp [h]) (by simp))) ?_ ?_ c hc
        · simp [hcount]
        · exact Or.inr ⟨s, rfl⟩
      · rw [if_pos (by simp [hgt, hb])] at hc
        rcases List.mem_cons.1 hc with rfl | hc'
        · exact emitted_chunk_sound maxW S hS buf (by simpa [List.isEmpty_iff] using hb)
            hbuf (hcount ▸ hinv)
        · refine ih [s] (countWords s) (fun x hx => hrest x (by simp [hx]))
            (fun x hx => ?_) (by simp) (Or.inr ⟨s, rfl⟩) c hc'
          rcases List.mem_cons.1 hx with rfl | hx
          · exact hrest x (by simp)
          · simp at hx
    · rw [if_neg (by simp [hgt])] at hc
      refine ih (buf ++ [s]) (count + countWords s) (fun x hx => hrest x (by simp [hx]))
        (fun x hx => ?_) (by simp [hcount]) (Or.inl (by omega)) c hc
      rcases List.mem_append.1 hx with hx | hx
      · exact hbuf x hx
      · rcases List.mem_singleton.1 hx with rfl
        exact hrest x (by simp)

/-- Every sentence produced by `_simple_sentence_split` is non-empty. -/
theorem sents_ne_nil (text : List Char) : ∀ s ∈ simpleSentenceSplit text, s ≠ [] := by
  intro s hs
  have h := (List.mem_filter.1 hs).2
  simpa [List.isEmpty_iff] using h

/-! ### Claim theorems -/

/-- C1 (amended): `MemoryStorage.search` does not order hits by similarity
to the query; it returns the first `min k n` stored items in insertion
order — the payload of the i-th hit is the i-th inserted payload, and hit
ids are the insertion positions `0, 1, ...`. -/
theorem C1_memory_search_insertion_order {α : Type} (s : MemoryStorage α)
    (q : List ℚ) (k : Nat) :
    (s.search q k).map MemHit.payload = s.meta.take k
    ∧ (s.search q k).map MemHit.id = List.range (min k s.meta.length) := by
  constructor
  · simpa [MemoryStorage.search, List.enum_eq_enumFrom] using
      enumHits_map_payload (s.meta.take k) 0
  · simpa [MemoryStorage.search, List.enum_eq_enumFrom, List.range_eq_range',
      List.length_take] using enumHits_map_id (s.meta.take k) 0

/-- C1 counterexample: in the collection reached by upserting the unit
vectors `[1,0]` then `[0,1]`, a `search` for query `[0,1]` with `k = 1`
returns the hit for the first inserted item (id 0) even though the second
stored vector is strictly closer to the query (cosine distance 0 versus 1),
so hits are not ordered by ascending distance / descending similarity. -/
theorem C1_search_ignores_similarity_counterexample :
    (MemoryStorage.upsert (⟨[], []⟩ : MemoryStorage ℕ) [[1, 0], [0, 1]] [10, 20]).2
      = ⟨[[1, 0], [0, 1]], [10, 20]⟩
    ∧ (MemoryStorage.search (⟨[[1, 0], [0, 1]], [10, 20]⟩ : MemoryStorage ℕ) [0, 1] 1)
      = [⟨0, 10, 1⟩]
    ∧ cosDist [0, 1] [0, 1] < cosDist [0, 1] [1, 0] := by
  refine ⟨by decide, by decide, ?_⟩
  norm_num [cosDist, dot]

/-- C2 (amended): the in-memory backend performs no dimension validation at
all — `upsert` reports success and appends the vectors and payloads
whatever their lengths; only the remote backend surfaces a dimension error,
by raising the vector service's 4xx/5xx response status. -/
theorem C2_upsert_appends_unchecked {α : Type} (s : MemoryStorage α)
    (vectors : List (List ℚ)) (payloads : List α) :
    (s.upsert vectors payloads).1 = ⟨true, vectors.length⟩
    ∧ (s.upsert vectors payloads).2.vecs = s.vecs ++ vectors
    ∧ (s.upsert vectors payloads).2.meta = s.meta ++ payloads
    ∧ ∀ status : Nat, 400 ≤ status → status < 600 → qdrantUpsert status = .error status := by
  refine ⟨rfl, rfl, rfl, ?_⟩
  intro status h1 h2
  simp [qdrantUpsert, raiseForStatus, h1, h2]

/-- C2 witness: concrete instance of the amended claim — appending a 1-dim
vector into a 2-dim in-memory collection succeeds, and a 400 response makes
the remote upsert raise. -/
theorem C2_upsert_appends_unchecked_witness :
    (MemoryStorage.upsert (⟨[[1, 0]], [7]⟩ : MemoryStorage ℕ) [[1]] [9]).2.vecs
      = [[1, 0]] ++ [[1]]
    ∧ qdrantUpsert 400 = .error 400 :=
  ⟨(C2_upsert_appends_unchecked ⟨[[1, 0]], [7]⟩ [[1]] [9]).2.1,
   (C2_upsert_appends_unchecked ⟨[[1, 0]], [7]⟩ [[1]] [9]).2.2.2 400 (by decide) (by decide)⟩

/-- C2 counterexample: upserting a 1-dim vector into a non-empty in-memory
collection of dimension 2 does not fail — it returns `ok` with count 1 and
changes the stored state. -/
theorem C2_mismatch_not_rejected_counterexample :
    ([1] : List ℚ).length ≠ ([1, 0] : List ℚ).length
    ∧ (MemoryStorage.upsert (⟨[[1, 0]], [7]⟩ : MemoryStorage ℕ) [[1]] [9]).1 = ⟨true, 1⟩
    ∧ (MemoryStorage.upsert (⟨[[1, 0]], [7]⟩ : MemoryStorage ℕ) [[1]] [9]).2
      ≠ ⟨[[1, 0]], [7]⟩ := by decide

/-- C3 (amended): the storage backends' `upsert` itself appends the new
items to the `n` already present, but the service-level ingest overwrites
the durable snapshot with only the chunks of the current call: after
`_save_index` the snapshot contains exactly the new batch, whatever was
persisted before. -/
theorem C3_backend_appends_service_overwrites {α : Type} (d : DiskState)
    (embs : List (List ℚ)) (metas : List ChunkMeta) (chunks : List String)
    (s : MemoryStorage α) (vectors : List (List ℚ)) (payloads : List α) :
    loadIndex (saveIndex d embs metas chunks) = some ⟨embs, metas, chunks⟩
    ∧ (s.upsert vectors payloads).2.vecs = s.vecs ++ vectors
    ∧ (s.upsert vectors payloads).2.meta = s.meta ++ payloads := by
  refine ⟨?_, rfl, rfl⟩
  simp [loadIndex, saveIndex, saveIndexStopping, FileContent.isPresent, FileContent.parse]

/-- C3 counterexample: after ingesting one chunk and then ingesting a
second batch of one chunk, the loaded collection holds only the one new
chunk — not the two chunks the claim requires — and the previously
persisted chunk text is gone. -/
theorem C3_reingest_overwrites_counterexample :
    loadIndex (saveIndex (⟨.absent, .absent, .absent⟩ : DiskState)
        [[1, 0]] [⟨"a.pdf", 0, "a.pdf:0:aaaa"⟩] ["old chunk"])
      = some ⟨[[1, 0]], [⟨"a.pdf", 0, "a.pdf:0:aaaa"⟩], ["old chunk"]⟩
    ∧ loadIndex (saveIndex (saveIndex (⟨.absent, .absent, .absent⟩ : DiskState)
        [[1, 0]] [⟨"a.pdf", 0, "a.pdf:0:aaaa"⟩] ["old chunk"])
        [[0, 1]] [⟨"a.pdf", 0, "a.pdf:0:bbbb"⟩] ["new chunk"])
      = some ⟨[[0, 1]], [⟨"a.pdf", 0, "a.pdf:0:bbbb"⟩], ["new chunk"]⟩
    ∧ ("old chunk" ∈ (["new chunk"] : List String)) = False := by decide

/-- C4 (amended): `_save_index` is not atomic — it writes the three files
in place, in order (vectors, then metadata, then text), with no temporary
paths or renames; a completed save leaves all three new, while an
interruption after the first or second write leaves the vectors file new
and the text file still holding its previous contents. -/
theorem C4_save_writes_in_place_sequentially (d : DiskState) (embs : List (List ℚ))
    (metas : List ChunkMeta) (chunks : List String) :
    saveIndexStopping d embs metas chunks .completed
      = ⟨.parsed embs, .parsed metas, .parsed chunks⟩
    ∧ saveIndexStopping d embs metas chunks .afterEmb
      = ⟨.parsed embs, d.metaFile, d.textFile⟩
    ∧ saveIndexStopping d embs metas chunks .afterMeta
      = ⟨.parsed embs, .parsed metas, d.textFile⟩
    ∧ ∀ stop : SaveStop, stop ≠ .completed →
        (saveIndexStopping d embs metas chunks stop).embFile = .parsed embs
        ∧ (saveIndexStopping d embs metas chunks stop).textFile = d.textFile := by
  refine ⟨rfl, rfl, rfl, ?_⟩
  intro stop hstop
  cases stop with
  | completed => exact absurd rfl hstop
  | afterEmb => exact ⟨rfl, rfl⟩
  | afterMeta => exact ⟨rfl, rfl⟩

/-- C4 witness: concrete instance of the amended claim at an interrupted
save. -/
theorem C4_save_writes_in_place_sequentially_witness :
    (saveIndexStopping (⟨.parsed [[1, 0]], .parsed [⟨"a.pdf", 0, "a"⟩], .parsed ["old"]⟩ : DiskState)
        [[1, 0], [0, 1]] [⟨"a.pdf", 0, "a"⟩, ⟨"b.pdf", 0, "b"⟩] ["old", "new"]
        .afterEmb).embFile = .parsed [[1, 0], [0, 1]]
    ∧ (saveIndexStopping (⟨.parsed [[1, 0]], .parsed [⟨"a.pdf", 0, "a"⟩], .parsed ["old"]⟩ : DiskState)
        [[1, 0], [0, 1]] [⟨"a.pdf", 0, "a"⟩, ⟨"b.pdf", 0, "b"⟩] ["old", "new"]
        .afterEmb).textFile = .parsed ["old"] :=
  (C4_save_writes_in_place_sequentially _ _ _ _).2.2.2 .afterEmb (by decide)

/-- C4 counterexample: a save interrupted after the embeddings write leaves
a snapshot that mixes the new vectors file with the old metadata and text
files — it is neither the all-old state nor the all-new state. -/
theorem C4_partial_save_counterexample :
    saveIndexStopping (⟨.parsed [[1, 0]], .parsed [⟨"a.pdf", 0, "a"⟩], .parsed ["old"]⟩ : DiskState)
        [[1, 0], [0, 1]] [⟨"a.pdf", 0, "a"⟩, ⟨"b.pdf", 0, "b"⟩] ["old", "new"] .afterEmb
      = ⟨.parsed [[1, 0], [0, 1]], .parsed [⟨"a.pdf", 0, "a"⟩], .parsed ["old"]⟩
    ∧ (⟨.parsed [[1, 0], [0, 1]], .parsed [⟨"a.pdf", 0, "a"⟩], .parsed ["old"]⟩ : DiskState)
      ≠ ⟨.parsed [[1, 0]], .parsed [⟨"a.pdf", 0, "a"⟩], .parsed ["old"]⟩
    ∧ (⟨.parsed [[1, 0], [0, 1]], .parsed [⟨"a.pdf", 0, "a"⟩], .parsed ["old"]⟩ : DiskState)
      ≠ ⟨.parsed [[1, 0], [0, 1]], .parsed [⟨"a.pdf", 0, "a"⟩, ⟨"b.pdf", 0, "b"⟩],
          .parsed ["old", "new"]⟩ := by decide

/-- C6: whenever any of the three snapshot files is missing or fails to
parse, loading yields the explicit no-index state, and `retrieve` on that
state returns the empty hit list without raising. -/
theorem C6_bad_snapshot_gives_no_index (d : DiskState) (q : List ℚ) (k : Nat)
    (h : d.embFile.bad ∨ d.metaFile.bad ∨ d.textFile.bad) :
    loadIndex d = none ∧ retrieve d q k = some [] := by
  have hl := loadIndex_eq_none_of_bad d h
  exact ⟨hl, by simp [retrieve, hl]⟩

/-- C6 witness: a snapshot whose embeddings file is corrupt loads as
no-index and retrieves the empty list. -/
theorem C6_bad_snapshot_gives_no_index_witness :
    loadIndex (⟨.corrupt, .parsed [], .parsed []⟩ : DiskState) = none
    ∧ retrieve (⟨.corrupt, .parsed [], .parsed []⟩ : DiskState) [] 2 = some [] :=
  C6_bad_snapshot_gives_no_index _ [] 2 (by decide)

/-- C8: the remote `ensure_collection` is idempotent — a create answered
with 200 or with 409 (collection already exists) succeeds, while any
failure status (4xx/5xx other than 409) on the create is raised to the
caller. -/
theorem C8_ensure_collection_idempotent (putStatus getStatus : Nat) :
    ((putStatus = 200 ∨ putStatus = 409) → ¬(400 ≤ getStatus ∧ getStatus < 600) →
      ensureCollection putStatus getStatus = .ok ())
    ∧ (400 ≤ putStatus → putStatus < 600 → putStatus ≠ 409 →
      ensureCollection putStatus getStatus = .error putStatus) := by
  constructor
  · rintro h hg
    rcases h with h | h <;> subst h <;> simp [ensureCollection, raiseForStatus, hg]
  · intro h1 h2 h3
    have hne : ¬(putStatus = 200 ∨ putStatus = 409) := by omega
    simp [ensureCollection, raiseForStatus, hne, h1, h2]

/-- C8 witness: 409 on create succeeds; 500 on create is raised. -/
theorem C8_ensure_collection_idempotent_witness :
    ensureCollection 409 200 = .ok () ∧ ensureCollection 500 200 = .error 500 :=
  ⟨(C8_ensure_collection_idempotent 409 200).1 (Or.inr rfl) (by decide),
   (C8_ensure_collection_idempotent 500 200).2 (by decide) (by decide) (by decide)⟩

/-- C9: `clear` is idempotent and safe on any in-memory collection state —
clearing a cleared collection gives the same result and state, a cleared
collection searches to `[]` for every query, and upserting after a clear
behaves exactly as on a freshly created empty collection; the remote clear
request succeeds on a 200 response (its match-all delete body is
state-independent). -/
theorem C9_clear_idempotent {α : Type} (s : MemoryStorage α) (q : List ℚ) (k : Nat)
    (vectors : List (List ℚ)) (payloads : List α) :
    MemoryStorage.clear (s.clear).2 = s.clear
    ∧ MemoryStorage.search (s.clear).2 q k = []
    ∧ MemoryStorage.upsert (s.clear).2 vectors payloads
      = MemoryStorage.upsert ⟨[], []⟩ vectors payloads
    ∧ qdrantClear 200 = .ok ⟨true, "chunks", true⟩ :=
  ⟨rfl, by simp [MemoryStorage.clear, MemoryStorage.reset, MemoryStorage.search], rfl, rfl⟩

/-- C10: the in-memory `search` result is a function of the stored state
and `k` only — any two query vectors give identical hit lists, every score
is exactly `1`, and the hit ids are the insertion positions. -/
theorem C10_search_query_independent {α : Type} (s : MemoryStorage α)
    (q1 q2 : List ℚ) (k : Nat) :
    s.search q1 k = s.search q2 k
    ∧ (s.search q1 k).map MemHit.score = List.replicate (min k s.meta.length) 1
    ∧ (s.search q1 k).map MemHit.id = List.range (min k s.meta.length) := by
  refine ⟨rfl, ?_, ?_⟩
  · simpa [MemoryStorage.search, List.enum_eq_enumFrom, List.length_take] using
      enumHits_map_score (s.meta.take k) 0
  · simpa [MemoryStorage.search, List.enum_eq_enumFrom, List.range_eq_range',
      List.length_take] using enumHits_map_id (s.meta.take k) 0

/-- C5 (failing-input evidence): on a present, parseable, length-consistent
snapshot with zero rows, `retrieve` raises (`none`): `_fit_nn` is called
before the `n_neighbors == 0` clamp and sklearn's `fit` rejects a zero-row
array, although the source's own comment ("Ensure embs is 2D and non-empty
for NearestNeighbors") and its `n_neighbors == 0` early return intend the
graceful empty result the claim states.  On the absent snapshot `retrieve`
does return the empty list. -/
theorem C5_retrieve_raises_on_empty_snapshot :
    retrieve (⟨.parsed [], .parsed [], .parsed []⟩ : DiskState) [] 4 = none
    ∧ retrieve (⟨.absent, .absent, .absent⟩ : DiskState) [] 4 = some [] := by decide

/-- C7: every chunk produced by `chunk_text` is a non-empty string, and no
chunk exceeds the `max_words` budget unless it is a single source sentence
that itself exceeds the budget. -/
theorem C7_chunk_bounds (text : List Char) (maxW : Nat) (cs : List (List Char))
    (hcs : chunk_text text maxW = some cs) (c : List Char) (hc : c ∈ cs) :
    c ≠ [] ∧ (countWords c ≤ maxW ∨ c ∈ simpleSentenceSplit text) := by
  rw [chunk_text] at hcs
  by_cases hfb : ((chunkLoop maxW (simpleSentenceSplit text) [] 0).isEmpty
      && !text.isEmpty) = true
  · rw [if_pos hfb] at hcs
    by_cases h0 : maxW = 0
    · rw [if_pos h0] at hcs
      exact Option.noConfusion hcs
    · rw [if_neg h0] at hcs
      have hcs' := Option.some.inj hcs
      subst hcs'
      have hw := windowJoin_sound maxW (Nat.one_le_iff_ne_zero.2 h0) (wordsOf text).length
        (wordsOf text) (fun w hw => wordsAux_sound text [] (by simp) w hw) c hc
      exact ⟨hw.1, Or.inl hw.2⟩
  · rw [if_neg hfb] at hcs
    have hcs' := Option.some.inj hcs
    subst hcs'
    exact chunkLoop_sound maxW (simpleSentenceSplit text) (sents_ne_nil text)
      (simpleSentenceSplit text) [] 0 (fun s hs => hs)
      (fun s hs => absurd hs (List.not_mem_nil s)) rfl (Or.inl (Nat.zero_le maxW)) c hc

/-- C7 witness: a concrete two-sentence text with a 3-word budget chunks
into the two sentences; the first chunk is non-empty and within budget. -/
theorem C7_chunk_bounds_witness :
    chunk_text "One two three. Four five.".toList 3
      = some ["One two three.".toList, "Four five.".toList]
    ∧ ("One two three.".toList ≠ []
      ∧ (countWords "One two three.".toList ≤ 3
        ∨ "One two three.".toList ∈ simpleSentenceSplit "One two three. Four five.".toList)) :=
  ⟨by decide,
   C7_chunk_bounds "One two three. Four five.".toList 3
     ["One two three.".toList, "Four five.".toList] (by decide)
     "One two three.".toList (by decide)⟩

end RagDemo
